import Mathlib

/-!
# Hotdog stall point of sale (finals.cxx)

A shallow embedding of `src/finals.cxx`.

* `int` values are mathematical integers; every `int` operation of the source
  is followed by `wrapInt`, the two's complement wrap-around to 32 bits.
* `double` arithmetic is a parameter (`DoubleArith`): the literals, the
  conversion from `int`, `+` and `*`.  `exactArith` instantiates it with exact
  rational arithmetic.
* `std::cin` is the list of characters still to be read; `std::cout` is a list
  of `Out` events, one per message, carrying the values streamed (rule lines and
  number formatting are left out).
* Signed overflow is undefined in C++; `wrapInt` is what two's complement
  hardware computes.
* A loop that waits for input is given fuel; `none` means that the call does
  not return on the given (finite) input: at the end of the stream the program
  prompts forever.
-/

namespace Finals

/-! ## Machine integers -/

/-- Largest `int`. -/
def INT_MAX : Int := 2147483647

/-- Smallest `int`. -/
def INT_MIN : Int := -2147483648

/-- Value stored by an `int` operation whose mathematical result is `x`. -/
def wrapInt (x : Int) : Int := (x + 2147483648) % 4294967296 - 2147483648

/-- The integer is a value of type `int`. -/
def IsInt (x : Int) : Prop := INT_MIN ≤ x ∧ x ≤ INT_MAX

instance (x : Int) : Decidable (IsInt x) := by unfold IsInt; infer_instance

/-! ## Double arithmetic -/

/-- The operations on `double` that the program uses. -/
structure DoubleArith (D : Type) where
  /-- Decimal literal: `lit 3000 2` is `30.00`, `lit 7 2` is `0.07`. -/
  lit : Nat → Nat → D
  /-- Conversion of an `int` operand. -/
  ofInt : Int → D
  /-- Addition. -/
  add : D → D → D
  /-- Multiplication. -/
  mul : D → D → D

/-- Exact rational arithmetic. -/
def exactArith : DoubleArith ℚ :=
  ⟨fun m d => (m : ℚ) / (10 : ℚ) ^ d, fun n => (n : ℚ), fun a b => a + b, fun a b => a * b⟩

/-! ## Items -/

/-- The struct `MenuItem`. -/
structure MenuItem (D : Type) where
  name : String
  price : D
  quantity : Int
  max_stock : Int
deriving DecidableEq

/-- The function `initializeMenu`. -/
def initializeMenu {D : Type} (A : DoubleArith D) : List (MenuItem D) :=
  [ ⟨"Classic Hotdog", A.lit 3000 2, 50, 100⟩,
    ⟨"Chili Cheese Dog", A.lit 5000 2, 30, 50⟩,
    ⟨"Chicken Hotdog", A.lit 4500 2, 20, 40⟩,
    ⟨"Soda (Can)", A.lit 3600 2, 100, 200⟩,
    ⟨"Bottled Water", A.lit 1500 2, 80, 150⟩,
    ⟨"Lemonade", A.lit 2000 2, 40, 70⟩ ]

/-! ## Output events -/

/-- The prompts passed to `getSafeIntInput`. -/
inductive Prompt where
  /-- Prompt for an item id, with `menu.size()`. -/
  | itemId (size : Nat)
  /-- Prompt for a quantity, with the item name and its stock. -/
  | howMany (name : String) (stock : Int)
  /-- Prompt for a restock amount. -/
  | restockAmount
deriving DecidableEq

/-- One output statement of the program. -/
inductive Out (D : Type) where
  | prompt (p : Prompt)
  | mustBeNonNegative
  | invalidWholeNumber
  | menuHeader
  | menuRow (id : Nat) (name : String) (price : D) (stock : Int)
  | menuFooter
  | restockBanner
  | restockItem (code : Nat) (name : String) (current : Int) (max : Int)
  | stockFull
  | recommended (needed : Int)
  | canOnlyAdd (amount : Int)
  | restocked (amount : Int) (newStock : Int)
  | restockComplete
  | welcome
  | invalidItemId
  | outOfStock (name : String)
  | quantityMustBePositive
  | onlyInStock (stock : Int)
  | added (quantity : Int) (name : String) (total : D)
  | receiptHeader
  | orderCanceled
  | receiptLine (quantity : Int) (name : String) (lineTotal : D)
  | subtotal (amount : D)
  | tax (amount : D)
  | grandTotal (amount : D)
  | thankYou
  | systemMenu
  | invalidInputTryAgain
  | goodbye
  | invalidOption
deriving DecidableEq

/-- The lines that only the checkout prints: the cancellation notice and the
three totals. -/
def Out.isCheckoutLine {D : Type} : Out D → Bool
  | Out.orderCanceled => true
  | Out.subtotal _ => true
  | Out.tax _ => true
  | Out.grandTotal _ => true
  | _ => false

/-- One of the three totals of the receipt. -/
def Out.isTotal {D : Type} : Out D → Bool
  | Out.subtotal _ => true
  | Out.tax _ => true
  | Out.grandTotal _ => true
  | _ => false

/-! ## Reading from `std::cin` -/

/-- Whitespace skipped by formatted extraction (the classic locale). -/
def isSpace (c : Char) : Bool :=
  c = ' ' || c = '\t' || c = '\n' || c = Char.ofNat 11 || c = Char.ofNat 12 || c = '\r'

/-- Value of a run of decimal digits. -/
def digitsValue (ds : List Char) : Nat :=
  ds.foldl (fun acc c => 10 * acc + (c.toNat - 48)) 0

/-- Outcome of `std::cin >> value` for an `int`. -/
inductive Extract where
  /-- The extraction succeeded with this value; the rest of the stream. -/
  | ok (value : Int) (rest : List Char)
  /-- The extraction failed (failbit set); the rest of the stream. -/
  | fail (rest : List Char)
deriving DecidableEq

/-- The digits of an extraction, after the optional sign: the longest run of
digits is read; the extraction fails when there is no digit or the number is
not an `int`. -/
def extractDigits (neg : Bool) (body : List Char) : Extract :=
  let ds := body.takeWhile Char.isDigit
  let rest := body.dropWhile Char.isDigit
  if ds = [] then .fail rest
  else
    let v : Int := if neg then -(digitsValue ds : Int) else (digitsValue ds : Int)
    if INT_MIN ≤ v ∧ v ≤ INT_MAX then .ok v rest else .fail rest

/-- The extraction `std::cin >> value` for an `int`: skip whitespace, read an
optional sign, then the digits. At the end of the stream it fails. -/
def extractInt (s : List Char) : Extract :=
  match s.dropWhile isSpace with
  | [] => .fail []
  | c :: t =>
    if c = '-' then extractDigits true t
    else if c = '+' then extractDigits false t
    else extractDigits false (c :: t)

/-- The call `std::cin.ignore(max, newline)`: discard through the next newline. -/
def ignoreLine (s : List Char) : List Char :=
  (s.dropWhile (fun c => c != '\n')).tail

/-- The loop of `getSafeIntInput`, with the output so far. -/
def getSafeIntInputLoop {D : Type} (p : Prompt) :
    Nat → List Char → List (Out D) → Option (Int × List Char × List (Out D))
  | 0, _, _ => none
  | fuel + 1, s, out =>
    match extractInt s with
    | .ok value rest =>
      if value ≥ 0 then some (value, rest, out ++ [.prompt p])
      else getSafeIntInputLoop p fuel rest (out ++ [.prompt p, .mustBeNonNegative])
    | .fail rest =>
      getSafeIntInputLoop p fuel (ignoreLine rest) (out ++ [.prompt p, .invalidWholeNumber])

/-- The function `getSafeIntInput`: the value returned, the stream left and
the output, or `none` when the stream ends before a value is accepted. -/
def getSafeIntInput {D : Type} (p : Prompt) (s : List Char) (out : List (Out D)) :
    Option (Int × List Char × List (Out D)) :=
  getSafeIntInputLoop p (s.length + 1) s out

/-- Specification of the validator, in the words of its contract: the stream
is consumed token by token (a token is what one extraction reads). A token that
is a non-negative integer is the value returned. A token that is a negative
integer is reported and skipped alone. A token that is not an integer is
reported and the rest of its line is discarded. `SpecFirstNonNegative p s out v
rest out1`: from stream `s` and output `out`, the value is `v`, the stream left
is `rest` and the output is `out1`. -/
inductive SpecFirstNonNegative {D : Type} (p : Prompt) :
    List Char → List (Out D) → Int → List Char → List (Out D) → Prop where
  | accept {s : List Char} {out : List (Out D)} {v : Int} {rest : List Char} :
      extractInt s = Extract.ok v rest → 0 ≤ v →
      SpecFirstNonNegative p s out v rest (out ++ [Out.prompt p])
  | negative {s : List Char} {out : List (Out D)} {n : Int} {mid : List Char} {v : Int}
      {rest : List Char} {out1 : List (Out D)} :
      extractInt s = Extract.ok n mid → n < 0 →
      SpecFirstNonNegative p mid (out ++ [Out.prompt p, Out.mustBeNonNegative]) v rest out1 →
      SpecFirstNonNegative p s out v rest out1
  | notInteger {s : List Char} {out : List (Out D)} {mid : List Char} {v : Int}
      {rest : List Char} {out1 : List (Out D)} :
      extractInt s = Extract.fail mid →
      SpecFirstNonNegative p (ignoreLine mid) (out ++ [Out.prompt p, Out.invalidWholeNumber])
        v rest out1 →
      SpecFirstNonNegative p s out v rest out1

/-! ## Display -/

/-- The rows printed by `displayMenu` from index `i` on: only items in stock. -/
def displayRows {D : Type} : Nat → List (MenuItem D) → List (Out D)
  | _, [] => []
  | i, item :: rest =>
    (if item.quantity > 0 then [Out.menuRow (i + 1) item.name item.price item.quantity] else [])
      ++ displayRows (i + 1) rest

/-- The function `displayMenu`. -/
def displayMenu {D : Type} (menu : List (MenuItem D)) : List (Out D) :=
  [Out.menuHeader] ++ displayRows 0 menu ++ [Out.menuFooter]

/-! ## Restock -/

/-- One iteration of the loop of `restockInventory`, for the item in slot `i`. -/
def restockOne {D : Type} (i : Nat) (item : MenuItem D) (s : List Char) (out : List (Out D)) :
    Option (MenuItem D × List Char × List (Out D)) :=
  let currentStock := item.quantity
  let maxStock := item.max_stock
  let needed := wrapInt (maxStock - currentStock)
  let out := out ++ [Out.restockItem (i + 1) item.name currentStock maxStock]
  if needed ≤ 0 then some (item, s, out ++ [Out.stockFull])
  else
    match getSafeIntInput Prompt.restockAmount s (out ++ [Out.recommended needed]) with
    | none => none
    | some (restockAmount, s, out) =>
      if restockAmount > 0 then
        let capped := decide (wrapInt (currentStock + restockAmount) > maxStock)
        let restockAmount := if capped then wrapInt (maxStock - currentStock) else restockAmount
        let out := if capped then out ++ [Out.canOnlyAdd restockAmount] else out
        let quantity := wrapInt (item.quantity + restockAmount)
        some ({ item with quantity := quantity }, s, out ++ [Out.restocked restockAmount quantity])
      else some (item, s, out)

/-- The loop of `restockInventory` over the items from slot `i` on. -/
def restockLoop {D : Type} : Nat → List (MenuItem D) → List Char → List (Out D) →
    Option (List (MenuItem D) × List Char × List (Out D))
  | _, [], s, out => some ([], s, out)
  | i, item :: items, s, out =>
    match restockOne i item s out with
    | none => none
    | some (item1, s1, out1) =>
      match restockLoop (i + 1) items s1 out1 with
      | none => none
      | some (items1, s2, out2) => some (item1 :: items1, s2, out2)

/-- The function `restockInventory`: the menu after the pass, the stream left
and the output. -/
def restockInventory {D : Type} (menu : List (MenuItem D)) (s : List Char) (out : List (Out D)) :
    Option (List (MenuItem D) × List Char × List (Out D)) :=
  match restockLoop 0 menu s (out ++ [Out.restockBanner]) with
  | none => none
  | some (menu1, s1, out1) => some (menu1, s1, out1 ++ [Out.restockComplete])

/-! ## Order -/

/-- The variables of `processOrder` together with the streams. -/
structure OrderState (D : Type) where
  menu : List (MenuItem D)
  cart : List (MenuItem D × Int)
  totalCost : D
  input : List Char
  out : List (Out D)

/-- How an iteration of the loop of `processOrder` ends. -/
inductive OrderFlow where
  /-- By `break`: the checkout follows. -/
  | checkout
  /-- By `continue`: the selection was rejected. -/
  | rejected
  /-- At the end of the body: an order line was confirmed for the slot `itemIndex`. -/
  | confirmed (itemIndex : Nat)
deriving DecidableEq

/-- One iteration of the loop of `processOrder`, with the way it ends. In `choice > menu.size()` the `int` is compared
as a `size_t`; it is at least 1 there, so the comparison is that of the
numbers. An index outside the menu gives `none`. -/
def orderIteration {D : Type} (A : DoubleArith D) (st : OrderState D) :
    Option (OrderFlow × OrderState D) :=
  match getSafeIntInput (Prompt.itemId st.menu.length) st.input (st.out ++ displayMenu st.menu) with
  | none => none
  | some (choice, s1, out1) =>
    if choice = 0 then some (OrderFlow.checkout, { st with input := s1, out := out1 })
    else if choice < 1 ∨ choice > (st.menu.length : Int) then
      some (OrderFlow.rejected, { st with input := s1, out := out1 ++ [Out.invalidItemId] })
    else
      let itemIndex := wrapInt (choice - 1)
      match st.menu[itemIndex.toNat]? with
      | none => none
      | some item =>
        if item.quantity ≤ 0 then
          some (OrderFlow.rejected,
            { st with input := s1, out := out1 ++ [Out.outOfStock item.name] })
        else
          match getSafeIntInput (Prompt.howMany item.name item.quantity) s1 out1 with
          | none => none
          | some (quantity, s2, out2) =>
            if quantity ≤ 0 then
              some (OrderFlow.rejected,
                { st with input := s2, out := out2 ++ [Out.quantityMustBePositive] })
            else
              let clamp := decide (quantity > item.quantity)
              let out3 := if clamp then out2 ++ [Out.onlyInStock item.quantity] else out2
              let quantity := if clamp then item.quantity else quantity
              let item1 : MenuItem D := { item with quantity := wrapInt (item.quantity - quantity) }
              let menu1 := st.menu.set itemIndex.toNat item1
              let orderedItem : MenuItem D := { item1 with quantity := quantity }
              let itemCost := A.mul orderedItem.price (A.ofInt quantity)
              let totalCost := A.add st.totalCost itemCost
              some (OrderFlow.confirmed itemIndex.toNat,
                ⟨menu1, st.cart ++ [(orderedItem, quantity)], totalCost, s2,
                  out3 ++ [Out.added quantity orderedItem.name totalCost]⟩)

/-- The loop of `processOrder`: the state at the checkout. -/
def orderLoop {D : Type} (A : DoubleArith D) : Nat → OrderState D → Option (OrderState D)
  | 0, _ => none
  | fuel + 1, st =>
    match orderIteration A st with
    | none => none
    | some (OrderFlow.checkout, st1) => some st1
    | some (OrderFlow.rejected, st1) => orderLoop A fuel st1
    | some (OrderFlow.confirmed _, st1) => orderLoop A fuel st1

/-- The slots of the order lines that the loop of `processOrder` confirms, in
the order in which it confirms them. -/
def orderSlots {D : Type} (A : DoubleArith D) : Nat → OrderState D → List Nat
  | 0, _ => []
  | fuel + 1, st =>
    match orderIteration A st with
    | none => []
    | some (OrderFlow.checkout, _) => []
    | some (OrderFlow.rejected, st1) => orderSlots A fuel st1
    | some (OrderFlow.confirmed itemIndex, st1) => itemIndex :: orderSlots A fuel st1

/-- The checkout of `processOrder`: the receipt. -/
def checkout {D : Type} (A : DoubleArith D) (cart : List (MenuItem D × Int)) (totalCost : D) :
    List (Out D) :=
  if cart.isEmpty then [Out.receiptHeader, Out.orderCanceled]
  else
    let taxAmount := A.mul totalCost (A.lit 7 2)
    let grandTotal := A.add totalCost taxAmount
    [Out.receiptHeader]
      ++ cart.map (fun item => Out.receiptLine item.2 item.1.name (A.mul item.1.price (A.ofInt item.2)))
      ++ [Out.subtotal totalCost, Out.tax taxAmount, Out.grandTotal grandTotal, Out.thankYou]

/-- The state of `processOrder` when its loop is left. -/
def orderSession {D : Type} (A : DoubleArith D) (menu : List (MenuItem D)) (s : List Char)
    (out : List (Out D)) : Option (OrderState D) :=
  orderLoop A (s.length + 1) ⟨menu, [], A.lit 0 1, s, out ++ [Out.welcome]⟩

/-- The slots of the order lines of a session of `processOrder`, one per cart
line. -/
def sessionSlots {D : Type} (A : DoubleArith D) (menu : List (MenuItem D)) (s : List Char)
    (out : List (Out D)) : List Nat :=
  orderSlots A (s.length + 1) ⟨menu, [], A.lit 0 1, s, out ++ [Out.welcome]⟩

/-- The function `processOrder`: the menu after the session, the stream left
and the output. -/
def processOrder {D : Type} (A : DoubleArith D) (menu : List (MenuItem D)) (s : List Char)
    (out : List (Out D)) : Option (List (MenuItem D) × List Char × List (Out D)) :=
  match orderSession A menu s out with
  | none => none
  | some st => some (st.menu, st.input, st.out ++ checkout A st.cart st.totalCost)

/-- The fields of the menu that no operation writes: per slot, the name, the
price and the max stock. -/
def frame {D : Type} (menu : List (MenuItem D)) : List (String × D × Int) :=
  menu.map (fun item => (item.name, item.price, item.max_stock))

/-- Total quantity of the cart lines that come from slot `i`, the lines being
tagged with the slot they were ordered from. -/
def orderedFrom {D : Type} (i : Nat) (tagged : List (Nat × (MenuItem D × Int))) : Int :=
  ((tagged.filter (fun t => decide (t.1 = i))).map (fun t => t.2.2)).sum

/-- The line total of a cart line, as the receipt prints it: price times
quantity. -/
def lineTotal {D : Type} (A : DoubleArith D) (line : MenuItem D × Int) : D :=
  A.mul line.1.price (A.ofInt line.2)

/-- The extraction `std::cin >> mainChoice` for a `char`: skip whitespace and
read one character; `none` when the stream has ended. -/
def extractChar (s : List Char) : Option (Char × List Char) :=
  match s.dropWhile isSpace with
  | [] => none
  | c :: t => some (c, t)

/-- What one iteration of the loop of `main` leads to. -/
inductive MainStep (D : Type) where
  /-- The program ends (`return 0`), with its whole output. -/
  | exit (menu : List (MenuItem D)) (out : List (Out D))
  /-- The loop goes round again. -/
  | next (menu : List (MenuItem D)) (s : List Char) (out : List (Out D))

/-- One iteration of the loop of `main`. -/
def mainIteration {D : Type} (A : DoubleArith D) (menu : List (MenuItem D)) (s : List Char)
    (out : List (Out D)) : Option (MainStep D) :=
  let out := out ++ [Out.systemMenu]
  match extractChar s with
  | none => some (MainStep.next menu (ignoreLine []) (out ++ [Out.invalidInputTryAgain]))
  | some (c, rest) =>
    let mainChoice := c.toUpper
    if mainChoice = 'O' then
      match processOrder A menu rest out with
      | none => none
      | some (menu1, s1, out1) => some (MainStep.next menu1 s1 out1)
    else if mainChoice = 'R' then
      match restockInventory menu rest out with
      | none => none
      | some (menu1, s1, out1) => some (MainStep.next menu1 s1 out1)
    else if mainChoice = 'E' then some (MainStep.exit menu (out ++ [Out.goodbye]))
    else some (MainStep.next menu rest (out ++ [Out.invalidOption]))

/-- The loop of `main`: the menu and the output when the program exits. -/
def mainLoop {D : Type} (A : DoubleArith D) : Nat → List (MenuItem D) → List Char → List (Out D) →
    Option (List (MenuItem D) × List (Out D))
  | 0, _, _, _ => none
  | fuel + 1, menu, s, out =>
    match mainIteration A menu s out with
    | none => none
    | some (MainStep.exit menu1 out1) => some (menu1, out1)
    | some (MainStep.next menu1 s1 out1) => mainLoop A fuel menu1 s1 out1

/-- The function `main` on the given input. -/
def main {D : Type} (A : DoubleArith D) (s : List Char) : Option (List (MenuItem D) × List (Out D)) :=
  mainLoop A (s.length + 1) (initializeMenu A) s []

/-- Output appended by a call: it extends the output so far by events that are
not checkout lines. -/
def Extends {D : Type} (out out1 : List (Out D)) : Prop :=
  ∃ extra : List (Out D), out1 = out ++ extra ∧ ∀ e ∈ extra, e.isCheckoutLine = false

/-! ## Facts about the stream primitives -/

theorem wrapInt_eq_self {x : Int} (hlo : INT_MIN ≤ x) (hhi : x ≤ INT_MAX) : wrapInt x = x := by
  unfold INT_MIN at hlo
  unfold INT_MAX at hhi
  unfold wrapInt
  omega

theorem length_dropWhile_le {α : Type} (p : α → Bool) (l : List α) :
    (l.dropWhile p).length ≤ l.length :=
  (List.dropWhile_sublist p).length_le

theorem length_dropWhile_lt {α : Type} (p : α → Bool) (l : List α) (h : l.takeWhile p ≠ []) :
    (l.dropWhile p).length < l.length := by
  have h1 : (l.takeWhile p ++ l.dropWhile p).length = l.length := by
    rw [List.takeWhile_append_dropWhile]
  rw [List.length_append] at h1
  have h2 : 0 < (l.takeWhile p).length := List.length_pos.mpr h
  omega

theorem ignoreLine_length_le (s : List Char) : (ignoreLine s).length ≤ s.length := by
  unfold ignoreLine
  have := length_dropWhile_le (fun c => c != '\n') s
  rw [List.length_tail]
  omega

theorem ignoreLine_cons_length_lt (c : Char) (t : List Char) :
    (ignoreLine (c :: t)).length < (c :: t).length := by
  unfold ignoreLine
  rw [List.length_tail]
  have := length_dropWhile_le (fun c => c != '\n') (c :: t)
  simp only [List.length_cons] at this ⊢
  omega

theorem extractInt_nil : extractInt [] = Extract.fail [] := rfl

theorem extractDigits_ok {neg : Bool} {body rest : List Char} {v : Int}
    (h : extractDigits neg body = Extract.ok v rest) :
    (INT_MIN ≤ v ∧ v ≤ INT_MAX) ∧ rest.length < body.length := by
  unfold extractDigits at h
  simp only at h
  by_cases h1 : body.takeWhile Char.isDigit = []
  · rw [if_pos h1] at h
    simp at h
  · rw [if_neg h1] at h
    split_ifs at h with h2 h3 h3
    all_goals
      simp only [Extract.ok.injEq] at h
      obtain ⟨hv, hr⟩ := h
      subst hv hr
      exact ⟨h3, length_dropWhile_lt Char.isDigit body h1⟩

theorem extractDigits_fail {neg : Bool} {body rest : List Char}
    (h : extractDigits neg body = Extract.fail rest) : rest.length ≤ body.length ∧
      (body ≠ [] → (ignoreLine rest).length < body.length) := by
  have hr : rest = body.dropWhile Char.isDigit := by
    unfold extractDigits at h
    simp only at h
    split_ifs at h <;> simp only [Extract.fail.injEq] at h <;> exact h.symm
  have hle := length_dropWhile_le Char.isDigit body
  rw [← hr] at hle
  refine ⟨hle, fun hb => ?_⟩
  cases rest with
  | nil => exact List.length_pos.mpr hb
  | cons c t =>
    have := ignoreLine_cons_length_lt c t
    omega

theorem extractInt_ok_range {s rest : List Char} {v : Int} (h : extractInt s = Extract.ok v rest) :
    INT_MIN ≤ v ∧ v ≤ INT_MAX := by
  unfold extractInt at h
  split at h
  · simp at h
  · split_ifs at h <;> exact (extractDigits_ok h).1

theorem extractInt_ok_length {s rest : List Char} {v : Int} (h : extractInt s = Extract.ok v rest) :
    rest.length < s.length := by
  unfold extractInt at h
  split at h
  · simp at h
  · rename_i c t hs
    have hle := length_dropWhile_le isSpace s
    rw [hs] at hle
    simp only [List.length_cons] at hle
    split_ifs at h <;> have := (extractDigits_ok h).2 <;> simp only [List.length_cons] at this <;> omega

theorem extractInt_fail_length {s rest : List Char} (h : extractInt s = Extract.fail rest)
    (hs : s ≠ []) : (ignoreLine rest).length < s.length := by
  have hpos : 0 < s.length := List.length_pos.mpr hs
  unfold extractInt at h
  split at h
  · simp only [Extract.fail.injEq] at h
    rw [← h]
    exact hpos
  · rename_i c t hd
    have hle := length_dropWhile_le isSpace s
    rw [hd] at hle
    simp only [List.length_cons] at hle
    have hr := ignoreLine_length_le rest
    split_ifs at h
    · have := (extractDigits_fail h).1
      omega
    · have := (extractDigits_fail h).1
      omega
    · have := (extractDigits_fail h).2 (by simp)
      simp only [List.length_cons] at this
      omega

theorem takeWhile_run {α : Type} (p : α → Bool) (ds rest : List α)
    (hds : ∀ d ∈ ds, p d = true) (hrest : ∀ c ∈ rest.head?, p c = false) :
    (ds ++ rest).takeWhile p = ds ∧ (ds ++ rest).dropWhile p = rest := by
  induction ds with
  | nil =>
    cases rest with
    | nil => simp
    | cons c t =>
      have hc : p c = false := hrest c (by simp)
      simp [List.takeWhile_cons, List.dropWhile_cons, hc]
  | cons d ds ih =>
    have hd : p d = true := hds d (by simp)
    have := ih (fun x hx => hds x (by simp [hx]))
    simp [List.takeWhile_cons, List.dropWhile_cons, hd, this.1, this.2]

theorem dropWhile_isSpace_run (ws rest : List Char) (hws : ∀ x ∈ ws, isSpace x = true)
    (hrest : ∀ c ∈ rest.head?, isSpace c = false) :
    (ws ++ rest).dropWhile isSpace = rest :=
  (takeWhile_run isSpace ws rest hws hrest).2

theorem isDigit_not_special (c : Char) (h : c.isDigit = true) :
    isSpace c = false ∧ c ≠ '-' ∧ c ≠ '+' := by
  refine ⟨?_, ?_, ?_⟩
  · cases hs : isSpace c with
    | false => rfl
    | true =>
      unfold isSpace at hs
      simp only [Bool.or_eq_true, decide_eq_true_eq] at hs
      rcases hs with ((((h1 | h1) | h1) | h1) | h1) | h1 <;> rw [h1] at h <;> revert h <;> decide
  · intro h1
    rw [h1] at h
    revert h
    decide
  · intro h1
    rw [h1] at h
    revert h
    decide

/-- What a token is: after whitespace, a run of digits that no digit follows
and whose value is an `int` is extracted whole, with that value. -/
theorem extractInt_number (ws ds rest : List Char) (hws : ∀ x ∈ ws, isSpace x = true)
    (hne : ds ≠ []) (hds : ∀ d ∈ ds, d.isDigit = true)
    (hrest : ∀ c ∈ rest.head?, c.isDigit = false) (hval : (digitsValue ds : Int) ≤ INT_MAX) :
    extractInt (ws ++ (ds ++ rest)) = Extract.ok (digitsValue ds) rest := by
  obtain ⟨d, t, rfl⟩ := List.exists_cons_of_ne_nil hne
  have hd : d.isDigit = true := hds d (by simp)
  obtain ⟨hsp, hm, hp⟩ := isDigit_not_special d hd
  have hrun := takeWhile_run Char.isDigit (d :: t) rest hds hrest
  unfold extractInt
  rw [dropWhile_isSpace_run ws _ hws (by simp [hsp])]
  simp only [List.cons_append]
  rw [if_neg hm, if_neg hp]
  unfold extractDigits
  simp only [List.cons_append] at hrun
  simp only [hrun.1, hrun.2]
  rw [if_neg (by simp), if_pos]
  · simp
  · constructor
    · simp only [Bool.false_eq_true, if_false]
      unfold INT_MIN
      omega
    · simpa using hval

/-- A minus sign before the digits gives the negative value. -/
theorem extractInt_negative_number (ws ds rest : List Char)
    (hws : ∀ x ∈ ws, isSpace x = true) (hne : ds ≠ []) (hds : ∀ d ∈ ds, d.isDigit = true)
    (hrest : ∀ c ∈ rest.head?, c.isDigit = false) (hval : INT_MIN ≤ -(digitsValue ds : Int)) :
    extractInt (ws ++ '-' :: (ds ++ rest)) = Extract.ok (-(digitsValue ds : Int)) rest := by
  have hrun := takeWhile_run Char.isDigit ds rest hds hrest
  unfold extractInt
  rw [dropWhile_isSpace_run ws _ hws (by simp [isSpace])]
  simp only [if_true]
  unfold extractDigits
  simp only [hrun.1, hrun.2]
  rw [if_neg hne, if_pos]
  · simp
  · constructor
    · simpa using hval
    · simp only [if_true]
      unfold INT_MAX
      omega

/-- A token that begins with neither a sign nor a digit is not an integer: the
extraction fails and the stream stands at that character. -/
theorem extractInt_not_number (ws : List Char) (c : Char) (rest : List Char)
    (hws : ∀ x ∈ ws, isSpace x = true) (hsp : isSpace c = false) (hd : c.isDigit = false)
    (hm : c ≠ '-') (hp : c ≠ '+') :
    extractInt (ws ++ c :: rest) = Extract.fail (c :: rest) := by
  unfold extractInt
  rw [dropWhile_isSpace_run ws _ hws (by simp [hsp])]
  simp only
  rw [if_neg hm, if_neg hp]
  unfold extractDigits
  simp [List.takeWhile_cons, List.dropWhile_cons, hd]

theorem getSafeIntInputLoop_nil {D : Type} (p : Prompt) (fuel : Nat) (out : List (Out D)) :
    getSafeIntInputLoop p fuel [] out = none := by
  induction fuel generalizing out with
  | zero => rfl
  | succ n ih =>
    unfold getSafeIntInputLoop
    rw [extractInt_nil]
    simp only
    exact ih _

/-- More fuel than the stream has characters is always enough: a result
obtained with any fuel is obtained with it. -/
theorem getSafeIntInputLoop_fuel {D : Type} (p : Prompt) (fuel fuel1 : Nat) (s : List Char)
    (out : List (Out D)) (r : Int × List Char × List (Out D))
    (h : getSafeIntInputLoop p fuel s out = some r) (hf : s.length < fuel1) :
    getSafeIntInputLoop p fuel1 s out = some r := by
  induction fuel generalizing fuel1 s out with
  | zero => simp [getSafeIntInputLoop] at h
  | succ n ih =>
    obtain ⟨m, rfl⟩ : ∃ m, fuel1 = m + 1 := ⟨fuel1 - 1, by omega⟩
    unfold getSafeIntInputLoop at h ⊢
    cases hx : extractInt s with
    | ok value rest =>
      rw [hx] at h
      simp only at h ⊢
      by_cases hv : value ≥ 0
      · rw [if_pos hv] at h ⊢
        exact h
      · rw [if_neg hv] at h ⊢
        have := extractInt_ok_length hx
        exact ih m rest _ h (by omega)
    | fail rest =>
      rw [hx] at h
      simp only at h ⊢
      by_cases hs : s = []
      · subst hs
        rw [extractInt_nil] at hx
        simp only [Extract.fail.injEq] at hx
        subst hx
        have : ignoreLine [] = [] := rfl
        rw [this, getSafeIntInputLoop_nil] at h
        simp at h
      · have := extractInt_fail_length hx hs
        exact ih m _ _ h (by omega)

/-- A value returned by the validator is a non-negative `int`, and the stream
has advanced. -/
theorem getSafeIntInputLoop_value {D : Type} (p : Prompt) (fuel : Nat) (s : List Char)
    (out : List (Out D)) (v : Int) (rest : List Char) (out1 : List (Out D))
    (h : getSafeIntInputLoop p fuel s out = some (v, rest, out1)) :
    0 ≤ v ∧ v ≤ INT_MAX ∧ rest.length < s.length := by
  induction fuel generalizing s out with
  | zero => simp [getSafeIntInputLoop] at h
  | succ n ih =>
    unfold getSafeIntInputLoop at h
    cases hx : extractInt s with
    | ok value mid =>
      rw [hx] at h
      simp only at h
      have hlen := extractInt_ok_length hx
      by_cases hv : value ≥ 0
      · rw [if_pos hv] at h
        simp only [Option.some.injEq, Prod.mk.injEq] at h
        obtain ⟨h1, h2, -⟩ := h
        subst h1 h2
        exact ⟨hv, (extractInt_ok_range hx).2, hlen⟩
      · rw [if_neg hv] at h
        have := ih _ _ h
        omega
    | fail mid =>
      rw [hx] at h
      simp only at h
      by_cases hs : s = []
      · subst hs
        rw [extractInt_nil] at hx
        simp only [Extract.fail.injEq] at hx
        subst hx
        have : ignoreLine [] = [] := rfl
        rw [this, getSafeIntInputLoop_nil] at h
        simp at h
      · have := extractInt_fail_length hx hs
        have := ih _ _ h
        omega

theorem getSafeIntInput_value {D : Type} {p : Prompt} {s : List Char} {out : List (Out D)}
    {v : Int} {rest : List Char} {out1 : List (Out D)}
    (h : getSafeIntInput p s out = some (v, rest, out1)) :
    0 ≤ v ∧ v ≤ INT_MAX ∧ rest.length < s.length :=
  getSafeIntInputLoop_value p _ s out v rest out1 h

/-! ## The validator -/

theorem getSafeIntInputLoop_spec {D : Type} (p : Prompt) (fuel : Nat) (s : List Char)
    (out : List (Out D)) (v : Int) (rest : List Char) (out1 : List (Out D))
    (h : getSafeIntInputLoop p fuel s out = some (v, rest, out1)) :
    SpecFirstNonNegative p s out v rest out1 := by
  induction fuel generalizing s out with
  | zero => simp [getSafeIntInputLoop] at h
  | succ n ih =>
    unfold getSafeIntInputLoop at h
    cases hx : extractInt s with
    | ok value mid =>
      rw [hx] at h
      simp only at h
      by_cases hv : value ≥ 0
      · rw [if_pos hv] at h
        simp only [Option.some.injEq, Prod.mk.injEq] at h
        obtain ⟨h1, h2, h3⟩ := h
        subst h1 h2 h3
        exact SpecFirstNonNegative.accept hx hv
      · rw [if_neg hv] at h
        exact SpecFirstNonNegative.negative hx (by omega) (ih _ _ h)
    | fail mid =>
      rw [hx] at h
      simp only at h
      exact SpecFirstNonNegative.notInteger hx (ih _ _ h)

/-- The validator returns whenever the specification names a value: the loop
ends on every stream that holds a non-negative integer to accept. -/
theorem getSafeIntInput_returns {D : Type} (p : Prompt) (s : List Char) (out : List (Out D))
    (v : Int) (rest : List Char) (out1 : List (Out D))
    (h : SpecFirstNonNegative p s out v rest out1) :
    getSafeIntInput p s out = some (v, rest, out1) := by
  unfold getSafeIntInput
  induction h with
  | accept hx hv =>
    unfold getSafeIntInputLoop
    rw [hx]
    simp only
    rw [if_pos hv]
  | negative hx hn _ ih =>
    unfold getSafeIntInputLoop
    rw [hx]
    simp only
    rw [if_neg (by omega)]
    have := extractInt_ok_length hx
    exact getSafeIntInputLoop_fuel p _ _ _ _ _ ih this
  | @notInteger s out mid v rest out1 hx hrec ih =>
    unfold getSafeIntInputLoop
    rw [hx]
    simp only
    by_cases hs : s = []
    · subst hs
      rw [extractInt_nil] at hx
      simp only [Extract.fail.injEq] at hx
      subst hx
      have hnil : ignoreLine [] = [] := rfl
      rw [hnil] at ih
      rw [getSafeIntInputLoop_nil] at ih
      simp at ih
    · have := extractInt_fail_length hx hs
      exact getSafeIntInputLoop_fuel p _ _ _ _ _ ih this

/-- C6. Whenever `getSafeIntInput` returns, the value is non-negative and it is
the first non-negative integer token of the stream consumed as the contract
says: a token that is not an integer is reported and the rest of its line is
discarded, a negative integer is reported and skipped alone. -/
theorem getSafeIntInput_first_nonnegative {D : Type} (p : Prompt) (s : List Char)
    (out : List (Out D)) (v : Int) (rest : List Char) (out1 : List (Out D))
    (h : getSafeIntInput p s out = some (v, rest, out1)) :
    0 ≤ v ∧ SpecFirstNonNegative p s out v rest out1 :=
  ⟨(getSafeIntInput_value h).1, getSafeIntInputLoop_spec p _ s out v rest out1 h⟩

/-- C6 at the two inputs of the contract: after a negative integer the input
that follows is read, after a token that is not an integer the next line is. -/
theorem getSafeIntInput_first_nonnegative_witness :
    (getSafeIntInput (D := ℚ) Prompt.restockAmount ['-', '5', ' ', '7'] [] =
        some (7, [], [Out.prompt Prompt.restockAmount, Out.mustBeNonNegative,
          Out.prompt Prompt.restockAmount]) ∧
      (0 : Int) ≤ 7 ∧
      SpecFirstNonNegative (D := ℚ) Prompt.restockAmount ['-', '5', ' ', '7'] [] 7 []
        [Out.prompt Prompt.restockAmount, Out.mustBeNonNegative,
          Out.prompt Prompt.restockAmount]) ∧
    (getSafeIntInput (D := ℚ) Prompt.restockAmount ['a', 'b', 'c', ' ', '7', '\n', '9'] [] =
        some (9, [], [Out.prompt Prompt.restockAmount, Out.invalidWholeNumber,
          Out.prompt Prompt.restockAmount]) ∧
      (0 : Int) ≤ 9 ∧
      SpecFirstNonNegative (D := ℚ) Prompt.restockAmount ['a', 'b', 'c', ' ', '7', '\n', '9'] [] 9 []
        [Out.prompt Prompt.restockAmount, Out.invalidWholeNumber,
          Out.prompt Prompt.restockAmount]) :=
  ⟨⟨by decide, getSafeIntInput_first_nonnegative _ _ _ _ _ _ (by decide)⟩,
   ⟨by decide, getSafeIntInput_first_nonnegative _ _ _ _ _ _ (by decide)⟩⟩

/-! ## One selection of an order -/

theorem wrapInt_isInt (x : Int) : IsInt (wrapInt x) := by
  unfold IsInt INT_MIN INT_MAX wrapInt
  omega

/-- The iteration that confirms an order line, in full. -/
theorem orderIteration_confirm_run {D : Type} (A : DoubleArith D) (st : OrderState D)
    (k : Int) (s1 : List Char) (out1 : List (Out D)) (item : MenuItem D)
    (q : Int) (s2 : List Char) (out2 : List (Out D))
    (hid : getSafeIntInput (Prompt.itemId st.menu.length) st.input
      (st.out ++ displayMenu st.menu) = some (k, s1, out1))
    (hk1 : 1 ≤ k) (hk2 : k ≤ (st.menu.length : Int))
    (hitem : st.menu[(k - 1).toNat]? = some item)
    (hs : 1 ≤ item.quantity) (hint : item.quantity ≤ INT_MAX)
    (hq : getSafeIntInput (Prompt.howMany item.name item.quantity) s1 out1 = some (q, s2, out2))
    (hq1 : 1 ≤ q) :
    orderIteration A st = some (OrderFlow.confirmed (k - 1).toNat,
      ⟨st.menu.set (k - 1).toNat
          ⟨item.name, item.price, item.quantity - min q item.quantity, item.max_stock⟩,
        st.cart ++
          [(⟨item.name, item.price, min q item.quantity, item.max_stock⟩, min q item.quantity)],
        A.add st.totalCost (A.mul item.price (A.ofInt (min q item.quantity))),
        s2,
        (if q > item.quantity then out2 ++ [Out.onlyInStock item.quantity] else out2) ++
          [Out.added (min q item.quantity) item.name
            (A.add st.totalCost (A.mul item.price (A.ofInt (min q item.quantity))))]⟩) := by
  have hkmax := (getSafeIntInput_value hid).2.1
  have hwk : wrapInt (k - 1) = k - 1 := by
    unfold INT_MAX at hkmax
    unfold wrapInt
    omega
  have hmin : min q item.quantity = if q > item.quantity then item.quantity else q := by
    split_ifs with hc
    · exact min_eq_right (by omega)
    · exact min_eq_left (by omega)
  have hw : wrapInt (item.quantity - min q item.quantity) = item.quantity - min q item.quantity := by
    have h1 : min q item.quantity ≤ item.quantity := min_le_right _ _
    have h2 : 1 ≤ min q item.quantity := le_min hq1 hs
    apply wrapInt_eq_self
    · unfold INT_MIN
      omega
    · omega
  unfold orderIteration
  rw [hid]
  simp only
  rw [if_neg (by omega), if_neg (by omega), hwk, hitem]
  simp only
  rw [if_neg (by omega), hq]
  simp only
  rw [if_neg (by omega)]
  simp only [decide_eq_true_eq, ← hmin, hw]

/-- C3. A valid item id whose item has stock `s ≥ 1`, followed by a requested
quantity `q ≥ 1`: the iteration appends exactly one cart line, with the name
and the unit price of the item and the quantity `min q s`, the stock of the
item becomes `s - min q s`, the running total grows by the price times
`min q s`, and the loop goes on. -/
theorem orderIteration_confirmed {D : Type} (A : DoubleArith D) (st : OrderState D)
    (k : Int) (s1 : List Char) (out1 : List (Out D)) (item : MenuItem D)
    (q : Int) (s2 : List Char) (out2 : List (Out D))
    (hid : getSafeIntInput (Prompt.itemId st.menu.length) st.input
      (st.out ++ displayMenu st.menu) = some (k, s1, out1))
    (hk1 : 1 ≤ k) (hk2 : k ≤ (st.menu.length : Int))
    (hitem : st.menu[(k - 1).toNat]? = some item)
    (hs : 1 ≤ item.quantity) (hint : item.quantity ≤ INT_MAX)
    (hq : getSafeIntInput (Prompt.howMany item.name item.quantity) s1 out1 = some (q, s2, out2))
    (hq1 : 1 ≤ q) :
    ∃ st1 : OrderState D,
      orderIteration A st = some (OrderFlow.confirmed (k - 1).toNat, st1) ∧
      st1.cart = st.cart ++
        [(⟨item.name, item.price, min q item.quantity, item.max_stock⟩, min q item.quantity)] ∧
      st1.menu = st.menu.set (k - 1).toNat
        ⟨item.name, item.price, item.quantity - min q item.quantity, item.max_stock⟩ ∧
      st1.menu[(k - 1).toNat]? =
        some ⟨item.name, item.price, item.quantity - min q item.quantity, item.max_stock⟩ ∧
      st1.totalCost = A.add st.totalCost (A.mul item.price (A.ofInt (min q item.quantity))) ∧
      st1.input = s2 := by
  have hlt : (k - 1).toNat < st.menu.length := by omega
  refine ⟨_, orderIteration_confirm_run A st k s1 out1 item q s2 out2 hid hk1 hk2 hitem hs hint
    hq hq1, rfl, rfl, ?_, rfl, rfl⟩
  simp only
  rw [List.getElem?_set_eq_of_lt _ hlt]

/-- C3 on the fresh catalog: item 3 (stock 20) with 25 requested gives one cart
line of 20 and leaves stock 0. -/
theorem orderIteration_confirmed_witness :
    (initializeMenu exactArith)[((3 : Int) - 1).toNat]? =
        some ⟨"Chicken Hotdog", exactArith.lit 4500 2, 20, 40⟩ ∧
    ∃ st1 : OrderState ℚ,
      orderIteration exactArith
        ⟨initializeMenu exactArith, [], exactArith.lit 0 1, ['3', '\n', '2', '5', '\n'], []⟩ =
          some (OrderFlow.confirmed ((3 : Int) - 1).toNat, st1) ∧
      st1.cart = [] ++ [(⟨"Chicken Hotdog", exactArith.lit 4500 2, min 25 20, 40⟩, min 25 20)] ∧
      st1.menu = (initializeMenu exactArith).set ((3 : Int) - 1).toNat
        ⟨"Chicken Hotdog", exactArith.lit 4500 2, 20 - min 25 20, 40⟩ ∧
      st1.menu[((3 : Int) - 1).toNat]? =
        some ⟨"Chicken Hotdog", exactArith.lit 4500 2, 20 - min 25 20, 40⟩ ∧
      st1.totalCost = exactArith.add (exactArith.lit 0 1)
        (exactArith.mul (exactArith.lit 4500 2) (exactArith.ofInt (min 25 20))) ∧
      st1.input = ['\n'] :=
  ⟨rfl, orderIteration_confirmed exactArith
    ⟨initializeMenu exactArith, [], exactArith.lit 0 1, ['3', '\n', '2', '5', '\n'], []⟩
    3 ['\n', '2', '5', '\n']
    (([] ++ displayMenu (initializeMenu exactArith)) ++ [Out.prompt (Prompt.itemId 6)])
    ⟨"Chicken Hotdog", exactArith.lit 4500 2, 20, 40⟩
    25 ['\n']
    ((([] ++ displayMenu (initializeMenu exactArith)) ++ [Out.prompt (Prompt.itemId 6)]) ++
      [Out.prompt (Prompt.howMany "Chicken Hotdog" 20)])
    rfl (by decide) (by decide) rfl (by decide) (by decide) rfl (by decide)⟩

/-- C5. A rejected selection leaves the menu, the cart and the running total
as they were and the loop goes on: (a) an id other than 0 outside
`1..menu.size()`, (b) a valid id whose item has stock 0, where no quantity is
read (the stream is the one left after the id), (c) a valid id of an item in
stock followed by the quantity 0. -/
theorem orderIteration_rejected {D : Type} (A : DoubleArith D) (st : OrderState D)
    (k : Int) (s1 : List Char) (out1 : List (Out D))
    (hid : getSafeIntInput (Prompt.itemId st.menu.length) st.input
      (st.out ++ displayMenu st.menu) = some (k, s1, out1)) :
    (k ≠ 0 → (k < 1 ∨ k > (st.menu.length : Int)) →
      orderIteration A st =
        some (OrderFlow.rejected,
          ⟨st.menu, st.cart, st.totalCost, s1, out1 ++ [Out.invalidItemId]⟩)) ∧
    (∀ item : MenuItem D, 1 ≤ k → k ≤ (st.menu.length : Int) →
      st.menu[(k - 1).toNat]? = some item → item.quantity = 0 →
      orderIteration A st =
        some (OrderFlow.rejected,
          ⟨st.menu, st.cart, st.totalCost, s1, out1 ++ [Out.outOfStock item.name]⟩)) ∧
    (∀ (item : MenuItem D) (s2 : List Char) (out2 : List (Out D)),
      1 ≤ k → k ≤ (st.menu.length : Int) →
      st.menu[(k - 1).toNat]? = some item → 0 < item.quantity →
      getSafeIntInput (Prompt.howMany item.name item.quantity) s1 out1 = some (0, s2, out2) →
      orderIteration A st =
        some (OrderFlow.rejected, ⟨st.menu, st.cart, st.totalCost, s2,
          out2 ++ [Out.quantityMustBePositive]⟩)) := by
  have hkmax := (getSafeIntInput_value hid).2.1
  have hwk : 1 ≤ k → wrapInt (k - 1) = k - 1 := by
    intro h1
    unfold INT_MAX at hkmax
    unfold wrapInt
    omega
  refine ⟨?_, ?_, ?_⟩
  · intro h0 hbad
    unfold orderIteration
    rw [hid]
    simp only
    rw [if_neg h0, if_pos hbad]
  · intro item hk1 hk2 hitem hz
    unfold orderIteration
    rw [hid]
    simp only
    rw [if_neg (by omega), if_neg (by omega), hwk hk1, hitem]
    simp only
    rw [if_pos (by omega)]
  · intro item s2 out2 hk1 hk2 hitem hpos hq
    unfold orderIteration
    rw [hid]
    simp only
    rw [if_neg (by omega), if_neg (by omega), hwk hk1, hitem]
    simp only
    rw [if_neg (by omega), hq]
    simp only
    rw [if_pos (by omega)]

/-- C5 at three inputs: id 9 on the fresh catalog; id 1 on a menu whose only
item has stock 0; id 1 then quantity 0 on the fresh catalog. -/
theorem orderIteration_rejected_witness :
    orderIteration exactArith
        ⟨initializeMenu exactArith, [], exactArith.lit 0 1, ['9', '\n', '0'], []⟩ =
      some (OrderFlow.rejected, ⟨initializeMenu exactArith, [], exactArith.lit 0 1, ['\n', '0'],
        (([] ++ displayMenu (initializeMenu exactArith)) ++ [Out.prompt (Prompt.itemId 6)]) ++
          [Out.invalidItemId]⟩) ∧
    orderIteration exactArith
        ⟨[⟨"Lemonade", exactArith.lit 2000 2, 0, 70⟩], [], exactArith.lit 0 1,
          ['1', '\n', '5'], []⟩ =
      some (OrderFlow.rejected, ⟨[⟨"Lemonade", exactArith.lit 2000 2, 0, 70⟩], [],
        exactArith.lit 0 1,
        ['\n', '5'],
        (([] ++ displayMenu [⟨"Lemonade", exactArith.lit 2000 2, 0, 70⟩]) ++
          [Out.prompt (Prompt.itemId 1)]) ++ [Out.outOfStock "Lemonade"]⟩) ∧
    orderIteration exactArith
        ⟨initializeMenu exactArith, [], exactArith.lit 0 1, ['1', '\n', '0', '\n'], []⟩ =
      some (OrderFlow.rejected, ⟨initializeMenu exactArith, [], exactArith.lit 0 1, ['\n'],
        ((([] ++ displayMenu (initializeMenu exactArith)) ++ [Out.prompt (Prompt.itemId 6)]) ++
          [Out.prompt (Prompt.howMany "Classic Hotdog" 50)]) ++
          [Out.quantityMustBePositive]⟩) :=
  ⟨(orderIteration_rejected exactArith
      ⟨initializeMenu exactArith, [], exactArith.lit 0 1, ['9', '\n', '0'], []⟩
      9 ['\n', '0'] _ rfl).1 (by decide) (by decide),
   (orderIteration_rejected exactArith
      ⟨[⟨"Lemonade", exactArith.lit 2000 2, 0, 70⟩], [], exactArith.lit 0 1,
        ['1', '\n', '5'], []⟩
      1 ['\n', '5'] _ rfl).2.1 ⟨"Lemonade", exactArith.lit 2000 2, 0, 70⟩
      (by decide) (by decide) rfl rfl,
   (orderIteration_rejected exactArith
      ⟨initializeMenu exactArith, [], exactArith.lit 0 1, ['1', '\n', '0', '\n'], []⟩
      1 ['\n', '0', '\n'] _ rfl).2.2 ⟨"Classic Hotdog", exactArith.lit 3000 2, 50, 100⟩
      ['\n'] _ (by decide) (by decide) rfl (by decide) rfl⟩

/-! ## The order loop -/

theorem Extends.refl {D : Type} (out : List (Out D)) : Extends out out :=
  ⟨[], by simp, by simp⟩

theorem Extends.trans {D : Type} {a b c : List (Out D)} (h1 : Extends a b) (h2 : Extends b c) :
    Extends a c := by
  obtain ⟨e1, rfl, h1⟩ := h1
  obtain ⟨e2, rfl, h2⟩ := h2
  refine ⟨e1 ++ e2, by simp, ?_⟩
  intro e he
  rcases List.mem_append.mp he with h | h
  · exact h1 e h
  · exact h2 e h

theorem Extends.append {D : Type} (out extra : List (Out D))
    (h : ∀ e ∈ extra, e.isCheckoutLine = false) : Extends out (out ++ extra) :=
  ⟨extra, rfl, h⟩

theorem displayRows_noCheckout {D : Type} (i : Nat) (menu : List (MenuItem D)) :
    ∀ e ∈ displayRows i menu, e.isCheckoutLine = false := by
  induction menu generalizing i with
  | nil => simp [displayRows]
  | cons item rest ih =>
    intro e he
    unfold displayRows at he
    rcases List.mem_append.mp he with h | h
    · split_ifs at h
      · simp only [List.mem_singleton] at h
        subst h
        rfl
      · simp at h
    · exact ih _ e h

theorem displayMenu_noCheckout {D : Type} (menu : List (MenuItem D)) :
    ∀ e ∈ displayMenu menu, e.isCheckoutLine = false := by
  intro e he
  unfold displayMenu at he
  simp only [List.mem_append, List.mem_singleton] at he
  rcases he with (h | h) | h
  · subst h; rfl
  · exact displayRows_noCheckout 0 menu e h
  · subst h; rfl

theorem getSafeIntInputLoop_extends {D : Type} (p : Prompt) (fuel : Nat) (s : List Char)
    (out : List (Out D)) (v : Int) (rest : List Char) (out1 : List (Out D))
    (h : getSafeIntInputLoop p fuel s out = some (v, rest, out1)) : Extends out out1 := by
  induction fuel generalizing s out with
  | zero => simp [getSafeIntInputLoop] at h
  | succ n ih =>
    unfold getSafeIntInputLoop at h
    cases hx : extractInt s with
    | ok value mid =>
      rw [hx] at h
      simp only at h
      by_cases hv : value ≥ 0
      · rw [if_pos hv] at h
        simp only [Option.some.injEq, Prod.mk.injEq] at h
        obtain ⟨-, -, h3⟩ := h
        subst h3
        exact Extends.append _ _ (by simp [Out.isCheckoutLine])
      · rw [if_neg hv] at h
        exact (Extends.append _ _ (by simp [Out.isCheckoutLine])).trans (ih _ _ h)
    | fail mid =>
      rw [hx] at h
      simp only at h
      exact (Extends.append _ _ (by simp [Out.isCheckoutLine])).trans (ih _ _ h)

theorem getSafeIntInput_extends {D : Type} {p : Prompt} {s : List Char} {out : List (Out D)}
    {v : Int} {rest : List Char} {out1 : List (Out D)}
    (h : getSafeIntInput p s out = some (v, rest, out1)) : Extends out out1 :=
  getSafeIntInputLoop_extends p _ s out v rest out1 h

/-- What one iteration of the order loop does to the state: the stream
advances, the output grows by lines that are not checkout lines, and either
the menu, cart and total are untouched, or one order line is confirmed. -/
theorem orderIteration_cases {D : Type} (A : DoubleArith D) (st : OrderState D) (b : OrderFlow)
    (st1 : OrderState D) (h : orderIteration A st = some (b, st1)) :
    st1.input.length < st.input.length ∧ Extends st.out st1.out ∧
    (((b = OrderFlow.checkout ∨ b = OrderFlow.rejected) ∧
        st1.menu = st.menu ∧ st1.cart = st.cart ∧ st1.totalCost = st.totalCost) ∨
     (∃ (idx : Nat) (item : MenuItem D) (q : Int), b = OrderFlow.confirmed idx ∧
        st.menu[idx]? = some item ∧ 1 ≤ q ∧ q ≤ item.quantity ∧
        st1.menu = st.menu.set idx
          ⟨item.name, item.price, wrapInt (item.quantity - q), item.max_stock⟩ ∧
        st1.cart = st.cart ++ [(⟨item.name, item.price, q, item.max_stock⟩, q)] ∧
        st1.totalCost = A.add st.totalCost (A.mul item.price (A.ofInt q)))) := by
  unfold orderIteration at h
  cases hid : getSafeIntInput (Prompt.itemId st.menu.length) st.input
      (st.out ++ displayMenu st.menu) with
  | none => rw [hid] at h; simp at h
  | some r =>
    obtain ⟨choice, s1, out1⟩ := r
    rw [hid] at h
    simp only at h
    have hlen1 := (getSafeIntInput_value hid).2.2
    have hext1 : Extends st.out out1 :=
      (Extends.append _ _ (displayMenu_noCheckout st.menu)).trans (getSafeIntInput_extends hid)
    by_cases h0 : choice = 0
    · rw [if_pos h0] at h
      simp only [Option.some.injEq, Prod.mk.injEq] at h
      obtain ⟨hb, rfl⟩ := h
      exact ⟨hlen1, hext1, Or.inl ⟨Or.inl hb.symm, rfl, rfl, rfl⟩⟩
    · rw [if_neg h0] at h
      by_cases hbad : choice < 1 ∨ choice > (st.menu.length : Int)
      · rw [if_pos hbad] at h
        simp only [Option.some.injEq, Prod.mk.injEq] at h
        obtain ⟨hb, rfl⟩ := h
        exact ⟨hlen1, hext1.trans (Extends.append _ _ (by simp [Out.isCheckoutLine])),
          Or.inl ⟨Or.inr hb.symm, rfl, rfl, rfl⟩⟩
      · rw [if_neg hbad] at h
        cases hitem : st.menu[(wrapInt (choice - 1)).toNat]? with
        | none => rw [hitem] at h; simp at h
        | some item =>
          rw [hitem] at h
          simp only at h
          by_cases hz : item.quantity ≤ 0
          · rw [if_pos hz] at h
            simp only [Option.some.injEq, Prod.mk.injEq] at h
            obtain ⟨hb, rfl⟩ := h
            exact ⟨hlen1, hext1.trans (Extends.append _ _ (by simp [Out.isCheckoutLine])),
              Or.inl ⟨Or.inr hb.symm, rfl, rfl, rfl⟩⟩
          · rw [if_neg hz] at h
            cases hq : getSafeIntInput (Prompt.howMany item.name item.quantity) s1 out1 with
            | none => rw [hq] at h; simp at h
            | some r2 =>
              obtain ⟨quantity, s2, out2⟩ := r2
              rw [hq] at h
              simp only at h
              have hlen2 := (getSafeIntInput_value hq).2.2
              have hext2 : Extends st.out out2 := hext1.trans (getSafeIntInput_extends hq)
              by_cases hq0 : quantity ≤ 0
              · rw [if_pos hq0] at h
                simp only [Option.some.injEq, Prod.mk.injEq] at h
                obtain ⟨hb, rfl⟩ := h
                exact ⟨by simp only; omega,
                  hext2.trans (Extends.append _ _ (by simp [Out.isCheckoutLine])),
                  Or.inl ⟨Or.inr hb.symm, rfl, rfl, rfl⟩⟩
              · rw [if_neg hq0] at h
                simp only [Option.some.injEq, Prod.mk.injEq] at h
                obtain ⟨hb, rfl⟩ := h
                refine ⟨by simp only; omega, ?_, Or.inr ⟨_, item,
                  (if quantity > item.quantity then item.quantity else quantity),
                  hb.symm, hitem, ?_, ?_, ?_, ?_, ?_⟩⟩
                · simp only
                  refine Extends.trans ?_ (Extends.append _ _ (by simp [Out.isCheckoutLine]))
                  split_ifs
                  · exact hext2.trans (Extends.append _ _ (by simp [Out.isCheckoutLine]))
                  · exact hext2
                · split_ifs <;> omega
                · split_ifs <;> omega
                · simp only [decide_eq_true_eq]
                · simp only [decide_eq_true_eq]
                · simp only [decide_eq_true_eq]

/-- Induction over the order loop: what every iteration keeps holds at the
checkout. -/
theorem orderLoop_induct {D : Type} (A : DoubleArith D) (P : OrderState D → Prop)
    (hstep : ∀ (st : OrderState D) (b : OrderFlow) (st1 : OrderState D),
      P st → orderIteration A st = some (b, st1) → P st1)
    (fuel : Nat) (st stf : OrderState D) (h : orderLoop A fuel st = some stf) (h0 : P st) :
    P stf := by
  induction fuel generalizing st with
  | zero => simp [orderLoop] at h
  | succ n ih =>
    unfold orderLoop at h
    cases hit : orderIteration A st with
    | none => rw [hit] at h; simp at h
    | some r =>
      obtain ⟨b, st1⟩ := r
      rw [hit] at h
      cases b with
      | checkout =>
        simp only [Option.some.injEq] at h
        subst h
        exact hstep st OrderFlow.checkout st1 h0 hit
      | rejected =>
        simp only at h
        exact ih st1 h (hstep st OrderFlow.rejected st1 h0 hit)
      | confirmed idx =>
        simp only at h
        exact ih st1 h (hstep st (OrderFlow.confirmed idx) st1 h0 hit)

/-- More fuel than the stream has characters is always enough for the order
loop: a checkout reached with any fuel is reached with it. -/
theorem orderLoop_fuel {D : Type} (A : DoubleArith D) (fuel fuel1 : Nat) (st stf : OrderState D)
    (h : orderLoop A fuel st = some stf) (hf : st.input.length < fuel1) :
    orderLoop A fuel1 st = some stf := by
  induction fuel generalizing fuel1 st with
  | zero => simp [orderLoop] at h
  | succ n ih =>
    obtain ⟨m, rfl⟩ : ∃ m, fuel1 = m + 1 := ⟨fuel1 - 1, by omega⟩
    unfold orderLoop at h ⊢
    cases hit : orderIteration A st with
    | none => rw [hit] at h; simp at h
    | some r =>
      obtain ⟨b, st1⟩ := r
      rw [hit] at h
      have hlen := (orderIteration_cases A st b st1 hit).1
      cases b with
      | checkout => exact h
      | rejected =>
        simp only at h ⊢
        exact ih m st1 h (by omega)
      | confirmed idx =>
        simp only at h ⊢
        exact ih m st1 h (by omega)

theorem set_getElem?_same {α : Type} (l : List α) (i : Nat) (a : α) (h : l[i]? = some a) :
    l.set i a = l := by
  apply List.ext_getElem?
  intro n
  by_cases hn : i = n
  · subst hn
    obtain ⟨hlt, -⟩ := List.getElem?_eq_some.mp h
    rw [List.getElem?_set_eq_of_lt _ hlt, h]
  · rw [List.getElem?_set_ne hn]

theorem frame_set {D : Type} (menu : List (MenuItem D)) (idx : Nat) (item : MenuItem D)
    (q : Int) (h : menu[idx]? = some item) :
    frame (menu.set idx ⟨item.name, item.price, q, item.max_stock⟩) = frame menu := by
  unfold frame
  rw [List.map_set]
  apply set_getElem?_same
  rw [List.getElem?_map, h]
  rfl

theorem frame_length {D : Type} {menu menu1 : List (MenuItem D)} (h : frame menu1 = frame menu) :
    menu1.length = menu.length := by
  have := congrArg List.length h
  simpa [frame] using this

theorem orderLoop_frame {D : Type} (A : DoubleArith D) (fuel : Nat) (st stf : OrderState D)
    (h : orderLoop A fuel st = some stf) : frame stf.menu = frame st.menu := by
  refine orderLoop_induct A (fun x => frame x.menu = frame st.menu) ?_ fuel st stf h rfl
  intro x b x1 hx hit
  rcases (orderIteration_cases A x b x1 hit).2.2 with
    ⟨-, hm, -, -⟩ | ⟨idx, item, q, -, hi, -, -, hm, -, -⟩
  · rw [hm]; exact hx
  · rw [hm, frame_set _ _ _ _ hi]; exact hx

/-- An order session reaches its checkout with the fuel of `orderSession`
whenever it reaches it with any fuel. -/
theorem orderSession_of_fuel {D : Type} (A : DoubleArith D) (menu : List (MenuItem D))
    (s : List Char) (out : List (Out D)) (fuel : Nat) (st : OrderState D)
    (h : orderLoop A fuel ⟨menu, [], A.lit 0 1, s, out ++ [Out.welcome]⟩ = some st) :
    orderSession A menu s out = some st :=
  orderLoop_fuel A fuel _ _ st h (by simp)

/-- Order sessions keep every stock between 0 and the max stock. -/
theorem orderLoop_stock_bounds {D : Type} (A : DoubleArith D) (fuel : Nat) (st stf : OrderState D)
    (h : orderLoop A fuel st = some stf)
    (h0 : ∀ item ∈ st.menu, 0 ≤ item.quantity ∧ item.quantity ≤ item.max_stock ∧
      item.max_stock ≤ INT_MAX) :
    ∀ item ∈ stf.menu, 0 ≤ item.quantity ∧ item.quantity ≤ item.max_stock ∧
      item.max_stock ≤ INT_MAX := by
  refine orderLoop_induct A (fun x => ∀ item ∈ x.menu, 0 ≤ item.quantity ∧
    item.quantity ≤ item.max_stock ∧ item.max_stock ≤ INT_MAX) ?_ fuel st stf h h0
  intro x b x1 hx hit
  rcases (orderIteration_cases A x b x1 hit).2.2 with
    ⟨-, hm, -, -⟩ | ⟨idx, cur, q, -, hcur, hq1, hq2, hm, -, -⟩
  · rw [hm]
    exact hx
  · intro item hmem
    rw [hm] at hmem
    rcases List.mem_or_eq_of_mem_set hmem with hin | heq
    · exact hx item hin
    · obtain ⟨hc0, hc1, hc2⟩ := hx cur (List.getElem?_mem hcur)
      have hw : wrapInt (cur.quantity - q) = cur.quantity - q := by
        apply wrapInt_eq_self
        · unfold INT_MIN
          omega
        · omega
      rw [heq, hw]
      simp only
      omega

theorem restockOne_frame {D : Type} (i : Nat) (item : MenuItem D) (s : List Char)
    (out : List (Out D)) (item1 : MenuItem D) (s1 : List Char) (out1 : List (Out D))
    (h : restockOne i item s out = some (item1, s1, out1)) :
    item1.name = item.name ∧ item1.price = item.price ∧ item1.max_stock = item.max_stock := by
  unfold restockOne at h
  simp only at h
  split_ifs at h with hfull
  · simp only [Option.some.injEq, Prod.mk.injEq] at h
    obtain ⟨rfl, -⟩ := h
    exact ⟨rfl, rfl, rfl⟩
  · split at h
    · simp at h
    · split_ifs at h
      all_goals
        simp only [Option.some.injEq, Prod.mk.injEq] at h
        obtain ⟨rfl, -⟩ := h
        exact ⟨rfl, rfl, rfl⟩

theorem restockLoop_frame {D : Type} (i : Nat) (menu : List (MenuItem D)) (s : List Char)
    (out : List (Out D)) (menu1 : List (MenuItem D)) (s1 : List Char) (out1 : List (Out D))
    (h : restockLoop i menu s out = some (menu1, s1, out1)) : frame menu1 = frame menu := by
  induction menu generalizing i s out menu1 s1 out1 with
  | nil =>
    simp only [restockLoop, Option.some.injEq, Prod.mk.injEq] at h
    rw [← h.1]
  | cons item items ih =>
    unfold restockLoop at h
    cases h1 : restockOne i item s out with
    | none => rw [h1] at h; simp at h
    | some r =>
      obtain ⟨item1, sa, outa⟩ := r
      rw [h1] at h
      simp only at h
      cases h2 : restockLoop (i + 1) items sa outa with
      | none => rw [h2] at h; simp at h
      | some r2 =>
        obtain ⟨items1, sb, outb⟩ := r2
        rw [h2] at h
        simp only [Option.some.injEq, Prod.mk.injEq] at h
        obtain ⟨rfl, -, -⟩ := h
        have hf := ih _ _ _ _ _ _ h2
        obtain ⟨hn, hp, hm⟩ := restockOne_frame i item s out item1 sa outa h1
        unfold frame at hf ⊢
        simp only [List.map_cons, hf, hn, hp, hm]

/-! ## Frame -/

/-- C7. A run of `processOrder` or of `restockInventory` leaves the number of
items and the name, price and max stock of every slot as they were; and an
iteration that confirms an order line for id `k` changes the quantity in slot
`k - 1` and leaves every other slot as it was. -/
theorem frame_preserved {D : Type} (A : DoubleArith D) (menu : List (MenuItem D))
    (s : List Char) (out : List (Out D)) :
    (∀ (menu1 : List (MenuItem D)) (s1 : List Char) (out1 : List (Out D)),
      processOrder A menu s out = some (menu1, s1, out1) →
      menu1.length = menu.length ∧ frame menu1 = frame menu) ∧
    (∀ (menu1 : List (MenuItem D)) (s1 : List Char) (out1 : List (Out D)),
      restockInventory menu s out = some (menu1, s1, out1) →
      menu1.length = menu.length ∧ frame menu1 = frame menu) ∧
    (∀ (cart : List (MenuItem D × Int)) (total : D) (k : Int) (s1 : List Char)
      (out1 : List (Out D)) (item : MenuItem D) (q : Int) (s2 : List Char) (out2 : List (Out D)),
      getSafeIntInput (Prompt.itemId menu.length) s (out ++ displayMenu menu) = some (k, s1, out1) →
      1 ≤ k → k ≤ (menu.length : Int) → menu[(k - 1).toNat]? = some item →
      1 ≤ item.quantity → item.quantity ≤ INT_MAX →
      getSafeIntInput (Prompt.howMany item.name item.quantity) s1 out1 = some (q, s2, out2) →
      1 ≤ q →
      ∃ st1 : OrderState D, orderIteration A ⟨menu, cart, total, s, out⟩ =
          some (OrderFlow.confirmed (k - 1).toNat, st1) ∧
        (∃ item1 : MenuItem D, st1.menu[(k - 1).toNat]? = some item1 ∧
          item1.quantity ≠ item.quantity) ∧
        ∀ j : Nat, j ≠ (k - 1).toNat → st1.menu[j]? = menu[j]?) := by
  refine ⟨?_, ?_, ?_⟩
  · intro menu1 s1 out1 h
    unfold processOrder at h
    cases hs : orderSession A menu s out with
    | none => rw [hs] at h; simp at h
    | some st =>
      rw [hs] at h
      simp only [Option.some.injEq, Prod.mk.injEq] at h
      obtain ⟨rfl, -, -⟩ := h
      have hf := orderLoop_frame A _ _ st hs
      exact ⟨frame_length hf, hf⟩
  · intro menu1 s1 out1 h
    unfold restockInventory at h
    cases hs : restockLoop 0 menu s (out ++ [Out.restockBanner]) with
    | none => rw [hs] at h; simp at h
    | some r =>
      obtain ⟨m, sa, outa⟩ := r
      rw [hs] at h
      simp only [Option.some.injEq, Prod.mk.injEq] at h
      obtain ⟨rfl, -, -⟩ := h
      have hf := restockLoop_frame 0 menu s _ m sa outa hs
      exact ⟨frame_length hf, hf⟩
  · intro cart total k s1 out1 item q s2 out2 hid hk1 hk2 hitem hs hint hq hq1
    have hlt : (k - 1).toNat < menu.length := by omega
    refine ⟨_, orderIteration_confirm_run A ⟨menu, cart, total, s, out⟩ k s1 out1 item q s2 out2
      hid hk1 hk2 hitem hs hint hq hq1,
      ⟨⟨item.name, item.price, item.quantity - min q item.quantity, item.max_stock⟩, ?_, ?_⟩, ?_⟩
    · simp only
      rw [List.getElem?_set_eq_of_lt _ hlt]
    · simp only
      have h2 : 1 ≤ min q item.quantity := le_min hq1 hs
      omega
    · intro j hj
      simp only
      rw [List.getElem?_set_ne (Ne.symm hj)]

/-- C7 on the fresh catalog: an order session (3 of item 1, then checkout), a
restock pass (5 more of item 1, nothing for the others) and the iteration that
confirms 3 of item 1. -/
theorem frame_preserved_witness :
    ((initializeMenu exactArith).set 0
        ⟨"Classic Hotdog", exactArith.lit 3000 2, 47, 100⟩).length =
      (initializeMenu exactArith).length ∧
    frame ((initializeMenu exactArith).set 0 ⟨"Classic Hotdog", exactArith.lit 3000 2, 47, 100⟩) =
      frame (initializeMenu exactArith) ∧
    frame ((initializeMenu exactArith).set 0 ⟨"Classic Hotdog", exactArith.lit 3000 2, 55, 100⟩) =
      frame (initializeMenu exactArith) ∧
    ∃ st1 : OrderState ℚ,
      orderIteration exactArith
        ⟨initializeMenu exactArith, [], exactArith.lit 0 1, ['1', '\n', '3', '\n', '0', '\n'], []⟩ =
          some (OrderFlow.confirmed ((1 : Int) - 1).toNat, st1) ∧
      (∃ item1 : MenuItem ℚ, st1.menu[((1 : Int) - 1).toNat]? = some item1 ∧
        item1.quantity ≠ (50 : Int)) ∧
      ∀ j : Nat, j ≠ ((1 : Int) - 1).toNat → st1.menu[j]? = (initializeMenu exactArith)[j]? :=
  ⟨((frame_preserved exactArith (initializeMenu exactArith)
      ['1', '\n', '3', '\n', '0', '\n'] []).1
      ((initializeMenu exactArith).set 0 ⟨"Classic Hotdog", exactArith.lit 3000 2, 47, 100⟩)
      ['\n'] _ rfl).1,
   ((frame_preserved exactArith (initializeMenu exactArith)
      ['1', '\n', '3', '\n', '0', '\n'] []).1
      ((initializeMenu exactArith).set 0 ⟨"Classic Hotdog", exactArith.lit 3000 2, 47, 100⟩)
      ['\n'] _ rfl).2,
   ((frame_preserved exactArith (initializeMenu exactArith)
      ['5', ' ', '0', ' ', '0', ' ', '0', ' ', '0', ' ', '0', '\n'] []).2.1
      ((initializeMenu exactArith).set 0 ⟨"Classic Hotdog", exactArith.lit 3000 2, 55, 100⟩)
      ['\n'] _ rfl).2,
   (frame_preserved exactArith (initializeMenu exactArith)
      ['1', '\n', '3', '\n', '0', '\n'] []).2.2 [] (exactArith.lit 0 1) 1
      ['\n', '3', '\n', '0', '\n'] _ ⟨"Classic Hotdog", exactArith.lit 3000 2, 50, 100⟩ 3
      ['\n', '0', '\n'] _ rfl (by decide) (by decide) rfl (by decide) (by decide) rfl (by decide)⟩

/-! ## Checkout -/

theorem orderLoop_extends {D : Type} (A : DoubleArith D) (fuel : Nat) (st stf : OrderState D)
    (h : orderLoop A fuel st = some stf) : Extends st.out stf.out := by
  refine orderLoop_induct A (fun x => Extends st.out x.out) ?_ fuel st stf h (Extends.refl _)
  intro x b x1 hx hit
  exact hx.trans (orderIteration_cases A x b x1 hit).2.1

theorem orderLoop_cart_nil {D : Type} (A : DoubleArith D) (fuel : Nat) (st stf : OrderState D)
    (h : orderLoop A fuel st = some stf) (hnil : stf.cart = []) : stf.menu = st.menu := by
  refine orderLoop_induct A (fun x => x.cart = [] → x.menu = st.menu) ?_ fuel st stf h
    (fun _ => rfl) hnil
  intro x b x1 hx hit hx1
  rcases (orderIteration_cases A x b x1 hit).2.2 with
    ⟨-, hm, hcart, -⟩ | ⟨idx, item, q, -, -, -, -, -, hcart, -⟩
  · rw [hm]
    exact hx (by rw [← hcart]; exact hx1)
  · rw [hcart] at hx1
    simp at hx1

theorem checkout_nil {D : Type} (A : DoubleArith D) (totalCost : D) :
    checkout A [] totalCost = [Out.receiptHeader, Out.orderCanceled] := rfl

theorem checkout_cons {D : Type} (A : DoubleArith D) (line : MenuItem D × Int)
    (cart : List (MenuItem D × Int)) (totalCost : D) :
    checkout A (line :: cart) totalCost =
      [Out.receiptHeader]
        ++ (line :: cart).map
          (fun item => Out.receiptLine item.2 item.1.name (A.mul item.1.price (A.ofInt item.2)))
        ++ [Out.subtotal totalCost, Out.tax (A.mul totalCost (A.lit 7 2)),
          Out.grandTotal (A.add totalCost (A.mul totalCost (A.lit 7 2))), Out.thankYou] := rfl

/-- C9. At the checkout of an order session the receipt holds the cancellation
notice and no Subtotal, Tax or GRAND TOTAL line exactly when the cart has no
line; with a line in the cart the three totals are printed and the notice is
not. The output before the receipt holds none of these four lines, and with an
empty cart the menu is the one the session started with. -/
theorem checkout_canceled_iff {D : Type} (A : DoubleArith D) (menu : List (MenuItem D))
    (s : List Char) (out : List (Out D)) (st : OrderState D)
    (h : orderSession A menu s out = some st) :
    processOrder A menu s out =
      some (st.menu, st.input, st.out ++ checkout A st.cart st.totalCost) ∧
    (∃ extra : List (Out D), st.out = out ++ extra ∧ ∀ e ∈ extra, e.isCheckoutLine = false) ∧
    ((Out.orderCanceled ∈ checkout A st.cart st.totalCost ∧
        ∀ e ∈ checkout A st.cart st.totalCost, e.isTotal = false) ↔ st.cart = []) ∧
    (st.cart ≠ [] → Out.orderCanceled ∉ checkout A st.cart st.totalCost ∧
      ∃ a b c : D, Out.subtotal a ∈ checkout A st.cart st.totalCost ∧
        Out.tax b ∈ checkout A st.cart st.totalCost ∧
        Out.grandTotal c ∈ checkout A st.cart st.totalCost) ∧
    (st.cart = [] → st.menu = menu) := by
  refine ⟨?_, ?_, ?_, ?_, ?_⟩
  · unfold processOrder
    rw [h]
  · have h1 := orderLoop_extends A _ _ st h
    exact (Extends.append out [Out.welcome] (by simp [Out.isCheckoutLine])).trans h1
  · constructor
    · rintro ⟨-, hno⟩
      cases hc : st.cart with
      | nil => rfl
      | cons line cart =>
        rw [hc, checkout_cons] at hno
        have := hno (Out.subtotal st.totalCost) (by simp)
        simp [Out.isTotal] at this
    · intro hc
      rw [hc, checkout_nil]
      refine ⟨by simp, ?_⟩
      intro e he
      simp only [List.mem_cons, List.mem_singleton, List.not_mem_nil, or_false] at he
      rcases he with rfl | rfl <;> rfl
  · intro hne
    cases hc : st.cart with
    | nil => exact absurd hc hne
    | cons line cart =>
      rw [checkout_cons]
      refine ⟨by simp, st.totalCost, A.mul st.totalCost (A.lit 7 2),
        A.add st.totalCost (A.mul st.totalCost (A.lit 7 2)), by simp, by simp, by simp⟩
  · intro hc
    exact orderLoop_cart_nil A _ _ st h hc

/-- C9 on the fresh catalog: an invalid id, then item 1 with quantity 0, then
checkout. -/
theorem checkout_canceled_iff_witness :
    orderSession exactArith (initializeMenu exactArith)
        ['9', '\n', '1', '\n', '0', '\n', '0', '\n'] [] =
      some ⟨initializeMenu exactArith, [], exactArith.lit 0 1, ['\n'],
        ((((((([] ++ [Out.welcome]) ++ displayMenu (initializeMenu exactArith)) ++
          [Out.prompt (Prompt.itemId 6)]) ++ [Out.invalidItemId]) ++
          displayMenu (initializeMenu exactArith)) ++ [Out.prompt (Prompt.itemId 6)]) ++
          [Out.prompt (Prompt.howMany "Classic Hotdog" 50)]) ++ [Out.quantityMustBePositive] ++
          displayMenu (initializeMenu exactArith) ++ [Out.prompt (Prompt.itemId 6)]⟩ ∧
    ((Out.orderCanceled ∈ checkout exactArith [] (exactArith.lit 0 1) ∧
        ∀ e ∈ checkout exactArith [] (exactArith.lit 0 1), e.isTotal = false) ↔
      ([] : List (MenuItem ℚ × Int)) = []) :=
  ⟨rfl, (checkout_canceled_iff exactArith (initializeMenu exactArith)
    ['9', '\n', '1', '\n', '0', '\n', '0', '\n'] [] _ rfl).2.2.1⟩

/-! ## Stock conservation -/

theorem orderedFrom_cons {D : Type} (i j : Nat) (line : MenuItem D × Int)
    (tagged : List (Nat × (MenuItem D × Int))) :
    orderedFrom i ((j, line) :: tagged) = (if j = i then line.2 else 0) + orderedFrom i tagged := by
  unfold orderedFrom
  by_cases hji : j = i
  · simp [List.filter_cons, hji]
  · simp [List.filter_cons, hji]

theorem frame_getElem? {D : Type} {menu menu1 : List (MenuItem D)} (h : frame menu1 = frame menu)
    {i : Nat} {item1 : MenuItem D} (h1 : menu1[i]? = some item1) :
    ∃ item : MenuItem D, menu[i]? = some item ∧ item1.name = item.name ∧
      item1.price = item.price := by
  have h2 : (frame menu1)[i]? = (frame menu)[i]? := by rw [h]
  unfold frame at h2
  rw [List.getElem?_map, List.getElem?_map, h1] at h2
  cases hmi : menu[i]? with
  | none => rw [hmi] at h2; simp at h2
  | some item =>
    rw [hmi] at h2
    simp only [Option.map_some', Option.some.injEq, Prod.mk.injEq] at h2
    exact ⟨item, rfl, h2.1, h2.2.1⟩

/-- Conservation over the order loop, from any state on: the cart grows by
one line per confirmed slot, and every slot gives up what its lines hold. -/
theorem orderLoop_conservation {D : Type} (A : DoubleArith D) (fuel : Nat)
    (st stf : OrderState D) (h : orderLoop A fuel st = some stf)
    (hmax : ∀ item ∈ st.menu, item.quantity ≤ INT_MAX) :
    ∃ lines : List (MenuItem D × Int), stf.cart = st.cart ++ lines ∧
      (orderSlots A fuel st).length = lines.length ∧
      (∀ line ∈ lines, 1 ≤ line.2) ∧
      (∀ t ∈ (orderSlots A fuel st).zip lines, ∃ item : MenuItem D,
        st.menu[t.1]? = some item ∧ t.2.1.name = item.name ∧ t.2.1.price = item.price) ∧
      (∀ (i : Nat) (item item1 : MenuItem D), st.menu[i]? = some item →
        stf.menu[i]? = some item1 →
        item.quantity - item1.quantity = orderedFrom i ((orderSlots A fuel st).zip lines)) := by
  induction fuel generalizing st with
  | zero => simp [orderLoop] at h
  | succ n ih =>
    unfold orderLoop at h
    unfold orderSlots
    cases hit : orderIteration A st with
    | none => rw [hit] at h; simp at h
    | some r =>
      obtain ⟨b, st1⟩ := r
      rw [hit] at h
      rcases (orderIteration_cases A st b st1 hit).2.2 with
        ⟨hb, hm, hcart, -⟩ | ⟨idx, cur, q, hb, hcur, hq1, hq2, hm, hcart, -⟩
      · rcases hb with hb | hb
        · subst hb
          simp only [Option.some.injEq] at h
          subst h
          refine ⟨[], by simp [hcart], rfl, by simp, by simp, ?_⟩
          intro i item item1 hi hi1
          rw [hm, hi] at hi1
          simp only [Option.some.injEq] at hi1
          subst hi1
          simp [orderedFrom]
        · subst hb
          simp only at h ⊢
          have := ih st1 h (by rw [hm]; exact hmax)
          rw [hm, hcart] at this
          exact this
      · subst hb
        simp only at h ⊢
        have hcurmax : cur.quantity ≤ INT_MAX := hmax cur (List.getElem?_mem hcur)
        have hw : wrapInt (cur.quantity - q) = cur.quantity - q := by
          apply wrapInt_eq_self
          · unfold INT_MIN
            omega
          · omega
        rw [hw] at hm
        have hlt : idx < st.menu.length := (List.getElem?_eq_some.mp hcur).1
        have hframe : frame st1.menu = frame st.menu := by
          rw [hm, frame_set _ _ _ _ hcur]
        have hmax1 : ∀ item ∈ st1.menu, item.quantity ≤ INT_MAX := by
          intro item hmem
          rw [hm] at hmem
          rcases List.mem_or_eq_of_mem_set hmem with hin | heq
          · exact hmax item hin
          · rw [heq]
            simp only
            omega
        obtain ⟨lines1, hc1, hlen1, hpos1, htag1, hcons1⟩ := ih st1 h hmax1
        refine ⟨(⟨cur.name, cur.price, q, cur.max_stock⟩, q) :: lines1, ?_, ?_, ?_, ?_, ?_⟩
        · rw [hc1, hcart]
          simp
        · simp [hlen1]
        · intro line hline
          rcases List.mem_cons.mp hline with heq | hin
          · rw [heq]
            exact hq1
          · exact hpos1 line hin
        · intro t ht
          rw [List.zip_cons_cons] at ht
          rcases List.mem_cons.mp ht with heq | hin
          · rw [heq]
            exact ⟨cur, hcur, rfl, rfl⟩
          · obtain ⟨item1, hi1, hn1, hp1⟩ := htag1 t hin
            obtain ⟨item, hi, hn, hp⟩ := frame_getElem? hframe hi1
            exact ⟨item, hi, by rw [hn1, hn], by rw [hp1, hp]⟩
        · intro i item item1 hi hi1
          rw [List.zip_cons_cons, orderedFrom_cons]
          by_cases hidx : idx = i
          · subst hidx
            have hmid : st1.menu[idx]? =
                some ⟨cur.name, cur.price, cur.quantity - q, cur.max_stock⟩ := by
              rw [hm, List.getElem?_set_eq_of_lt _ hlt]
            have := hcons1 idx _ item1 hmid hi1
            rw [hcur] at hi
            simp only [Option.some.injEq] at hi
            subst hi
            simp only [if_true] at this ⊢
            omega
          · have hmid : st1.menu[i]? = some item := by
              rw [hm, List.getElem?_set_ne hidx]
              exact hi
            have := hcons1 i item item1 hmid hi1
            simp only [if_neg hidx]
            omega

/-- C10. Over an order session the stock of every slot goes down by exactly
the quantities of the cart lines ordered from that slot. `sessionSlots` lists,
in order, the slot of each confirmed order line: there is one per cart line,
each cart line carries the name and price of its slot, and for every slot the
stock before minus the stock after is the sum of the quantities of the cart
lines from that slot (repeat orders are separate lines, all counted). Every
cart line has quantity at least 1. -/
theorem order_conservation {D : Type} (A : DoubleArith D) (menu : List (MenuItem D))
    (s : List Char) (out : List (Out D)) (st : OrderState D)
    (hint : ∀ item ∈ menu, item.quantity ≤ INT_MAX)
    (h : orderSession A menu s out = some st) :
    (sessionSlots A menu s out).length = st.cart.length ∧
    (∀ t ∈ (sessionSlots A menu s out).zip st.cart, ∃ item : MenuItem D,
      menu[t.1]? = some item ∧ t.2.1.name = item.name ∧ t.2.1.price = item.price) ∧
    (∀ (i : Nat) (item item1 : MenuItem D), menu[i]? = some item → st.menu[i]? = some item1 →
      item.quantity - item1.quantity =
        orderedFrom i ((sessionSlots A menu s out).zip st.cart)) ∧
    (∀ line ∈ st.cart, 1 ≤ line.2) := by
  obtain ⟨lines, hc, hlen, hpos, htag, hcons⟩ := orderLoop_conservation A _ _ st h hint
  simp only [List.nil_append] at hc
  unfold sessionSlots
  rw [hc]
  exact ⟨hlen, htag, hcons, hpos⟩

/-- C10 on the fresh catalog: 3 of item 1, 2 more of item 1, 2 of item 4, then
checkout: three cart lines from the slots 0, 0 and 3; item 1 is down by 5 and
item 4 by 2. -/
theorem order_conservation_witness :
    ∃ st : OrderState ℚ,
      orderSession exactArith (initializeMenu exactArith)
        ['1', ' ', '3', '\n', '1', ' ', '2', '\n', '4', ' ', '2', '\n', '0', '\n'] [] = some st ∧
      sessionSlots exactArith (initializeMenu exactArith)
        ['1', ' ', '3', '\n', '1', ' ', '2', '\n', '4', ' ', '2', '\n', '0', '\n'] [] = [0, 0, 3] ∧
      st.cart.map Prod.snd = [3, 2, 2] ∧
      st.menu.map (fun item => item.quantity) = [45, 30, 20, 98, 80, 40] ∧
      ((sessionSlots exactArith (initializeMenu exactArith)
          ['1', ' ', '3', '\n', '1', ' ', '2', '\n', '4', ' ', '2', '\n', '0', '\n'] []).length =
          st.cart.length ∧
        (∀ t ∈ (sessionSlots exactArith (initializeMenu exactArith)
            ['1', ' ', '3', '\n', '1', ' ', '2', '\n', '4', ' ', '2', '\n', '0', '\n'] []).zip
            st.cart,
          ∃ item : MenuItem ℚ, (initializeMenu exactArith)[t.1]? = some item ∧
            t.2.1.name = item.name ∧ t.2.1.price = item.price) ∧
        (∀ (i : Nat) (item item1 : MenuItem ℚ), (initializeMenu exactArith)[i]? = some item →
          st.menu[i]? = some item1 →
          item.quantity - item1.quantity =
            orderedFrom i ((sessionSlots exactArith (initializeMenu exactArith)
              ['1', ' ', '3', '\n', '1', ' ', '2', '\n', '4', ' ', '2', '\n', '0', '\n'] []).zip
              st.cart)) ∧
        (∀ line ∈ st.cart, 1 ≤ line.2)) :=
  ⟨_, rfl, by decide, rfl, rfl, order_conservation exactArith (initializeMenu exactArith)
    ['1', ' ', '3', '\n', '1', ' ', '2', '\n', '4', ' ', '2', '\n', '0', '\n'] [] _
    (by decide) rfl⟩

/-! ## Receipt totals -/

/-- An item whose stock is at its max: nothing is read and the stock stays. -/
theorem restockOne_full {D : Type} (i : Nat) (item : MenuItem D) (s : List Char)
    (out : List (Out D)) (hfull : item.quantity = item.max_stock) :
    restockOne i item s out = some (item, s,
      out ++ [Out.restockItem (i + 1) item.name item.quantity item.max_stock] ++
        [Out.stockFull]) := by
  unfold restockOne
  simp only
  rw [if_pos]
  rw [hfull]
  unfold wrapInt
  omega

/-- An item below its max and an amount `a` that the validator returns: as
long as `s + a` is an `int`, the stock becomes `min (s + a) m`. -/
theorem restockOne_of_no_overflow {D : Type} (i : Nat) (item : MenuItem D) (s : List Char)
    (out : List (Out D)) (a : Int) (s1 : List Char) (out1 : List (Out D))
    (h0 : 0 ≤ item.quantity) (hlt : item.quantity < item.max_stock)
    (hmax : item.max_stock ≤ INT_MAX)
    (hread : getSafeIntInput Prompt.restockAmount s
      (out ++ [Out.restockItem (i + 1) item.name item.quantity item.max_stock] ++
        [Out.recommended (item.max_stock - item.quantity)]) = some (a, s1, out1))
    (hsum : item.quantity + a ≤ INT_MAX) :
    restockOne i item s out =
      some (⟨item.name, item.price, min (item.quantity + a) item.max_stock, item.max_stock⟩,
        s1,
        if a > 0 then
          (if item.quantity + a > item.max_stock then
            out1 ++ [Out.canOnlyAdd (item.max_stock - item.quantity)] else out1) ++
          [Out.restocked (if item.quantity + a > item.max_stock then
            item.max_stock - item.quantity else a) (min (item.quantity + a) item.max_stock)]
        else out1) := by
  have ha := (getSafeIntInput_value hread).1
  unfold INT_MAX at hmax hsum
  have hneed : wrapInt (item.max_stock - item.quantity) = item.max_stock - item.quantity := by
    unfold wrapInt
    omega
  have hadd : wrapInt (item.quantity + a) = item.quantity + a := by
    unfold wrapInt
    omega
  unfold restockOne
  simp only
  rw [hneed, if_neg (by omega), hread]
  simp only
  by_cases hpos : a > 0
  · rw [if_pos hpos, if_pos hpos, hadd]
    by_cases hcap : item.quantity + a > item.max_stock
    · have hmin : min (item.quantity + a) item.max_stock = item.max_stock :=
        min_eq_right (by omega)
      have hw : wrapInt (item.quantity + (item.max_stock - item.quantity)) = item.max_stock := by
        unfold wrapInt
        omega
      simp only [hcap, decide_True, if_true, hw, hmin]
    · have hmin : min (item.quantity + a) item.max_stock = item.quantity + a :=
        min_eq_left (by omega)
      simp only [hcap, decide_False, hmin, Bool.false_eq_true, if_false, hadd]
  · rw [if_neg hpos, if_neg hpos]
    have ha0 : a = 0 := by omega
    have hmin : min (item.quantity + a) item.max_stock = item.quantity := by
      rw [ha0, Int.add_zero]
      exact min_eq_left (by omega)
    rw [hmin]

/-- C2 fails at stock 30, max 50 and the amount 2147483647, which the validator
returns: `30 + 2147483647` is not an `int`, the sum wraps below zero, the cap
is not applied and the stock becomes -2147483619 instead of 50. -/
theorem restockOne_overflow :
    getSafeIntInput (D := ℚ) Prompt.restockAmount
        ['2', '1', '4', '7', '4', '8', '3', '6', '4', '7', '\n'] [] =
      some (2147483647, ['\n'], [Out.prompt Prompt.restockAmount]) ∧
    restockOne 1 ⟨"Chili Cheese Dog", exactArith.lit 5000 2, 30, 50⟩
        ['2', '1', '4', '7', '4', '8', '3', '6', '4', '7', '\n'] [] =
      some (⟨"Chili Cheese Dog", exactArith.lit 5000 2, -2147483619, 50⟩, ['\n'],
        [Out.restockItem 2 "Chili Cheese Dog" 30 50, Out.recommended 20,
          Out.prompt Prompt.restockAmount, Out.restocked 2147483647 (-2147483619)]) ∧
    (-2147483619 : Int) ≠ min (30 + 2147483647) 50 :=
  ⟨rfl, rfl, by decide⟩

/-- C1 fails on the program itself: restock, with 2147483647 for item 1 and 0
for the others, then exit. Item 1 ends with the stock -2147483599. -/
theorem main_stock_negative :
    (main exactArith
        ['R', '\n', '2', '1', '4', '7', '4', '8', '3', '6', '4', '7', '\n',
          '0', '\n', '0', '\n', '0', '\n', '0', '\n', '0', '\n', 'E', '\n']).map
        (fun r => r.1.map (fun item => (item.quantity, item.max_stock))) =
      some [(-2147483599, 100), (30, 50), (20, 40), (100, 200), (80, 150), (40, 70)] ∧
    ¬ ((0 : Int) ≤ -2147483599) :=
  ⟨by decide, by decide⟩

/-! ## Main menu -/

end Finals
